import Mathlib

/-!
# Shallow embedding of the protobuf IDL parser (src/src/parser.rs)

The source is a nom-3 parser-combinator grammar over a byte slice.  We model
the input as a list of characters and a parser as a function from input to a
three-valued result: `done rest value` (nom `IResult::Done`), `fail`
(nom `IResult::Error`, recoverable — `alt!` tries the next branch), and
`fatal`, which models a Rust panic (`expect`) that unwinds the whole parse
call and is *not* caught by `alt!`/`many0!`.

Combinator semantics follow nom 3.x:
* `alt!` tries the next alternative only on a recoverable error;
* `many0!` stops on a recoverable error of the inner parser and *fails* if the
  inner parser succeeds without consuming input;
* `many1!` requires a first success, then loops while the inner parser
  succeeds with progress;
* `separated_list!` parses `item (sep item)*`, backtracking to before a
  trailing separator; a first item succeeding without consuming is an error;
* `opt!` converts a recoverable error into `none`;
* `map_res!` fails when the conversion function fails (e.g. `i32` overflow).

Recursion through the grammar (messages containing messages, groups
containing fields) is expressed with an explicit fuel argument; the exported
entry points instantiate the fuel at a value larger than the call depth any
input of that length can reach.
-/

set_option maxRecDepth 4000

namespace Proto

abbrev Input := List Char

inductive PResult (α : Type) : Type where
  | done : Input → α → PResult α
  | fail : PResult α
  | fatal : PResult α
deriving Repr

def Parser (α : Type) : Type := Input → PResult α

def ppure {α : Type} (a : α) : Parser α := fun i => .done i a

def pbind {α β : Type} (p : Parser α) (f : α → Parser β) : Parser β := fun i =>
  match p i with
  | .done r a => f a r
  | .fail => .fail
  | .fatal => .fatal

instance : Monad Parser where
  pure := ppure
  bind := pbind

def palt {α : Type} (p q : Parser α) : Parser α := fun i =>
  match p i with
  | .fail => q i
  | r => r

instance {α : Type} : OrElse (Parser α) := ⟨fun p q => palt p (q ())⟩

def pmap {α β : Type} (p : Parser α) (f : α → β) : Parser β := fun i =>
  match p i with
  | .done r a => .done r (f a)
  | .fail => .fail
  | .fatal => .fatal

/-- nom `opt!`: a recoverable failure becomes `none`. -/
def popt {α : Type} (p : Parser α) : Parser (Option α) := fun i =>
  match p i with
  | .done r a => .done r (some a)
  | .fail => .done i none
  | .fatal => .fatal

/-- nom `tag!`. -/
def ptag (s : String) : Parser Unit := fun i =>
  if s.toList.isPrefixOf i then .done (i.drop s.toList.length) () else .fail

/-- nom `take_while!` (never fails; the matched run may be empty). -/
def ptakeWhile (f : Char → Bool) : Parser (List Char) := fun i =>
  .done (i.dropWhile f) (i.takeWhile f)

/-- A `take_while1`-style run: at least one matching character. -/
def prun1 (f : Char → Bool) : Parser (List Char) := fun i =>
  let v := i.takeWhile f
  if v.isEmpty then .fail else .done (i.dropWhile f) v

/-- nom `is_not!`: the maximal non-empty run of characters different from `c`. -/
def pisNot (c : Char) : Parser (List Char) := fun i =>
  let v := i.takeWhile (fun d => d ≠ c)
  if v.isEmpty then .fail else .done (i.dropWhile (fun d => d ≠ c)) v

/-- Index of the first occurrence of `pat` in `i`, if any. -/
def findSub (pat : List Char) : List Char → Option Nat
  | [] => if pat.isEmpty then some 0 else none
  | c :: cs =>
    if pat.isPrefixOf (c :: cs) then some 0 else (findSub pat cs).map (· + 1)

/-- nom `take_until_and_consume!`. -/
def ptakeUntilConsume (s : String) : Parser (List Char) := fun i =>
  match findSub s.toList i with
  | some k => .done (i.drop (k + s.toList.length)) (i.take k)
  | none => .fail

/-- nom `many0!`: stop on recoverable failure; error when the inner parser
succeeds without consuming input; a panic propagates. -/
def many0Aux {α : Type} (p : Parser α) : Nat → Input → PResult (List α)
  | 0, i => .done i []
  | fuel + 1, i =>
    match p i with
    | .fail => .done i []
    | .fatal => .fatal
    | .done r a =>
      if r.length < i.length then
        match many0Aux p fuel r with
        | .done r2 as => .done r2 (a :: as)
        | .fail => .fail
        | .fatal => .fatal
      else .fail

def many0 {α : Type} (p : Parser α) : Parser (List α) := fun i =>
  many0Aux p (i.length + 1) i

/-- The looping part of nom `many1!`: collect while the inner parser succeeds
with progress (no error on a non-consuming success, unlike `many0!`). -/
def many1Loop {α : Type} (p : Parser α) : Nat → Input → PResult (List α)
  | 0, i => .done i []
  | fuel + 1, i =>
    match p i with
    | .fail => .done i []
    | .fatal => .fatal
    | .done r a =>
      if r.length < i.length then
        match many1Loop p fuel r with
        | .done r2 as => .done r2 (a :: as)
        | .fail => .fail
        | .fatal => .fatal
      else .done i []

/-- nom `many1!`. -/
def many1 {α : Type} (p : Parser α) : Parser (List α) := fun i =>
  match p i with
  | .fail => .fail
  | .fatal => .fatal
  | .done r a =>
    if r.length < i.length then
      match many1Loop p (r.length + 1) r with
      | .done r2 as => .done r2 (a :: as)
      | .fail => .fail
      | .fatal => .fatal
    else .done r [a]

/-- The looping part of nom `separated_list!`: `sep item` repeatedly,
backtracking to before a trailing separator. -/
def sepListLoop {α β : Type} (sep : Parser β) (p : Parser α) :
    Nat → Input → PResult (List α)
  | 0, i => .done i []
  | fuel + 1, i =>
    match sep i with
    | .fail => .done i []
    | .fatal => .fatal
    | .done i2 _ =>
      if i2.length ≤ i.length then
        match p i2 with
        | .fail => .done i []
        | .fatal => .fatal
        | .done i3 a =>
          if i3.length < i.length then
            match sepListLoop sep p fuel i3 with
            | .done r as => .done r (a :: as)
            | .fail => .fail
            | .fatal => .fatal
          else .done i []
      else .done i []

/-- nom `separated_list!`. -/
def sepList {α β : Type} (sep : Parser β) (p : Parser α) : Parser (List α) := fun i =>
  match p i with
  | .fail => .done i []
  | .fatal => .fatal
  | .done i1 a =>
    if i1.length < i.length then
      match sepListLoop sep p (i1.length + 1) i1 with
      | .done r as => .done r (a :: as)
      | .fail => .fail
      | .fatal => .fatal
    else .fail

/-! ## Character classes and numeric conversions -/

/-- `is_word` from the source: ASCII letters, digits, underscore, dot. -/
def is_word (c : Char) : Bool :=
  ('a' ≤ c && c ≤ 'z') || ('A' ≤ c && c ≤ 'Z') || ('0' ≤ c && c ≤ '9') ||
    c = '_' || c = '.'

def isSpaceChar (c : Char) : Bool :=
  c = ' ' || c = '\t' || c = '\r' || c = '\n'

def is_hex_digit (c : Char) : Bool :=
  c.isDigit || ('a' ≤ c && c ≤ 'f') || ('A' ≤ c && c ≤ 'F')

def digitsToNat (l : List Char) : Nat :=
  l.foldl (fun acc c => acc * 10 + (c.toNat - 48)) 0

def hexVal (c : Char) : Nat :=
  if c.isDigit then c.toNat - 48
  else if 'a' ≤ c && c ≤ 'f' then c.toNat - 87
  else c.toNat - 55

def hexToNat (l : List Char) : Nat :=
  l.foldl (fun acc c => acc * 16 + hexVal c) 0

def I32_MAX : Int := 2147483647

/-- Rust `i32::saturating_add(1)` on the (nonnegative) values this parser
produces. -/
def satAdd1 (x : Int) : Int := if x + 1 > I32_MAX then I32_MAX else x + 1

/-- Rust `str::trim` on the ASCII whitespace that can occur here. -/
def trimChars (l : List Char) : List Char :=
  ((l.dropWhile isSpaceChar).reverse.dropWhile isSpaceChar).reverse

/-- Rust `bool::from_str`: exactly `true` / `false`. -/
def parseBoolStr : String → Option Bool
  | "true" => some true
  | "false" => some false
  | _ => none

/-! ## Data model (`super::{...}` types used by the parser) -/

inductive PSyntax : Type where
  | proto2
  | proto3
deriving Repr, DecidableEq

inductive Rule : Type where
  | optional
  | repeated
  | required
deriving Repr, DecidableEq

mutual
inductive FieldType : Type where
  | int32 | int64 | uint32 | uint64 | sint32 | sint64
  | fixed32 | sfixed32 | fixed64 | sfixed64
  | bool | string | refCountedString | bytes | refCountedBytes
  | float | double
  | group (fields : List Field)
  | map (kv : FieldType × FieldType)
  | messageOrEnum (name : String)

inductive Field : Type where
  | mk (name : String) (rule : Rule) (typ : FieldType) (number : Int)
      (defaultV : Option String) (packed : Option Bool) (deprecated : Bool)
end

def Field.name : Field → String
  | .mk n _ _ _ _ _ _ => n

def Field.rule : Field → Rule
  | .mk _ r _ _ _ _ _ => r

def Field.typ : Field → FieldType
  | .mk _ _ t _ _ _ _ => t

def Field.number : Field → Int
  | .mk _ _ _ n _ _ _ => n

def Field.defaultV : Field → Option String
  | .mk _ _ _ _ d _ _ => d

def Field.packed : Field → Option Bool
  | .mk _ _ _ _ _ p _ => p

def Field.deprecated : Field → Bool
  | .mk _ _ _ _ _ _ d => d

structure OneOf : Type where
  name : String
  fields : List Field

structure EnumValue : Type where
  name : String
  number : Int
deriving Repr, DecidableEq

structure Enumeration : Type where
  name : String
  values : List EnumValue

inductive Message : Type where
  | mk (name : String) (fields : List Field) (oneofs : List OneOf)
      (reserved_nums : List (Int × Int)) (reserved_names : List String)
      (messages : List Message) (enums : List Enumeration)

def Message.name : Message → String
  | .mk n _ _ _ _ _ _ => n

def Message.fields : Message → List Field
  | .mk _ f _ _ _ _ _ => f

def Message.oneofs : Message → List OneOf
  | .mk _ _ o _ _ _ _ => o

def Message.reserved_nums : Message → List (Int × Int)
  | .mk _ _ _ r _ _ _ => r

def Message.reserved_names : Message → List String
  | .mk _ _ _ _ r _ _ => r

def Message.messages : Message → List Message
  | .mk _ _ _ _ _ m _ => m

def Message.enums : Message → List Enumeration
  | .mk _ _ _ _ _ _ e => e

inductive MessageEvent : Type where
  | message (m : Message)
  | enumeration (e : Enumeration)
  | field (f : Field)
  | reservedNums (r : List (Int × Int))
  | reservedNames (r : List String)
  | oneOf (o : OneOf)
  | ignore

structure Extension : Type where
  extendee : String
  field : Field

structure FileDescriptor : Type where
  syn : PSyntax
  import_paths : List String
  package : String
  messages : List Message
  enums : List Enumeration
  extensions : List Extension

/-- `FileDescriptor::default()`: syntax defaults to Proto2, all lists empty. -/
def defaultFileDescriptor : FileDescriptor :=
  ⟨PSyntax.proto2, [], "", [], [], []⟩

inductive Event : Type where
  | syntaxE (s : PSyntax)
  | importE (p : String)
  | packageE (p : String)
  | messageE (m : Message)
  | enumE (e : Enumeration)
  | extensionsE (l : List Extension)
  | ignoreE

/-! ## Lexical primitives -/

/-- `word`: maximal (possibly empty) run of word characters. -/
def word : Parser String := fun i =>
  .done (i.dropWhile is_word) (String.mk (i.takeWhile is_word))

/-- `hex_integer`: `0x` then a hex digit run, converted through
`i32::from_str_radix(_, 16)` (fails above `i32::MAX`). -/
def hex_integer : Parser Int := fun i =>
  match ptag "0x" i with
  | .done i1 _ =>
    match prun1 is_hex_digit i1 with
    | .done r ds =>
      if (hexToNat ds : Int) ≤ I32_MAX then .done r (Int.ofNat (hexToNat ds))
      else .fail
    | .fail => .fail
    | .fatal => .fatal
  | .fail => .fail
  | .fatal => .fatal

/-- `integer`: a decimal digit run converted through `i32::from_str`
(fails above `i32::MAX`). -/
def integer : Parser Int := fun i =>
  match prun1 Char.isDigit i with
  | .done r ds =>
    if (digitsToNat ds : Int) ≤ I32_MAX then .done r (Int.ofNat (digitsToNat ds))
    else .fail
  | .fail => .fail
  | .fatal => .fatal

/-- `comment`: `//` up to and including the next newline. -/
def comment : Parser Unit := do
  ptag "//"
  let _ ← ptakeUntilConsume "\n"
  pure ()

/-- `block_comment`: `/*` up to and including the first `*/`. -/
def block_comment : Parser Unit := do
  ptag "/*"
  let _ ← ptakeUntilConsume "*/"
  pure ()

/-- `br`: one word break — a whitespace run, a line comment or a block
comment. -/
def br : Parser Unit :=
  (pmap (prun1 isSpaceChar) fun _ => ()) <|> comment <|> block_comment

/-! ## Statement-level parsers -/

/-- `syntax`: `syntax = "proto2"|"proto3" ;`. -/
def syntaxP : Parser PSyntax := do
  ptag "syntax"
  let _ ← many0 br
  ptag "="
  let _ ← many0 br
  let proto ← (pmap (ptag "\"proto2\"") fun _ => PSyntax.proto2) <|>
    (pmap (ptag "\"proto3\"") fun _ => PSyntax.proto3)
  let _ ← many0 br
  ptag ";"
  pure proto

/-- `import`: `import "path" ;`. -/
def importP : Parser String := do
  ptag "import"
  let _ ← many1 br
  ptag "\""
  let path ← pmap (ptakeUntilConsume "\"") (fun l => String.mk l)
  let _ ← many0 br
  ptag ";"
  pure path

/-- `package`: `package dotted.name ;`. -/
def package : Parser String := do
  ptag "package"
  let _ ← many1 br
  let pk ← word
  let _ ← many0 br
  ptag ";"
  pure pk

/-- `num_range`: `A to B`, producing `A .. B.saturating_add(1)`. -/
def num_range : Parser (Int × Int) := do
  let lo ← integer
  let _ ← many1 br
  ptag "to"
  let _ ← many1 br
  let hi ← integer
  pure (lo, satAdd1 hi)

/-- `reserved_nums`: `reserved` then a comma-separated list of ranges or
single integers, then `;`. -/
def reserved_nums : Parser (List (Int × Int)) := do
  ptag "reserved"
  let _ ← many1 br
  let nums ← sepList
    (do
      let _ ← many0 br
      ptag ","
      let _ ← many0 br
      pure ())
    (num_range <|> pmap integer (fun n => (n, satAdd1 n)))
  let _ ← many0 br
  ptag ";"
  pure nums

/-- `reserved_names`: `reserved` then one or more quoted words separated by
breaks or commas, then `;`. -/
def reserved_names : Parser (List String) := do
  ptag "reserved"
  let _ ← many1 br
  let names ← many1 (do
    ptag "\""
    let n ← word
    ptag "\""
    let _ ← many0 (br <|> pmap (ptag ",") fun _ => ())
    pure n)
  let _ ← many0 br
  ptag ";"
  pure names

/-- `key_val`: one bracket group `[ key = value ]`; the value is the
non-empty run of bytes up to (not including) the next `]`, trimmed. -/
def key_val : Parser (String × String) := do
  ptag "["
  let _ ← many0 br
  let key ← word
  let _ ← many0 br
  ptag "="
  let _ ← many0 br
  let value ← pisNot ']'
  ptag "]"
  let _ ← many0 br
  pure (key, String.mk (trimChars value))

/-- `rule`: `optional` / `repeated` / `required`. -/
def rule : Parser Rule :=
  (pmap (ptag "optional") fun _ => Rule.optional) <|>
  (pmap (ptag "repeated") fun _ => Rule.repeated) <|>
  (pmap (ptag "required") fun _ => Rule.required)

/-! ## Type grammar (`field_type` / `map_field` are mutually recursive) -/

mutual

/-- `field_type`: scalar keywords first, then `group`, then `map<K,V>`,
then a bare word as an unresolved type name (source alternative order). -/
def field_typeAux : Nat → Parser FieldType
  | 0 => fun _ => .fail
  | fuel + 1 =>
    (pmap (ptag "int32") fun _ => FieldType.int32) <|>
    (pmap (ptag "int64") fun _ => FieldType.int64) <|>
    (pmap (ptag "uint32") fun _ => FieldType.uint32) <|>
    (pmap (ptag "uint64") fun _ => FieldType.uint64) <|>
    (pmap (ptag "sint32") fun _ => FieldType.sint32) <|>
    (pmap (ptag "sint64") fun _ => FieldType.sint64) <|>
    (pmap (ptag "fixed32") fun _ => FieldType.fixed32) <|>
    (pmap (ptag "sfixed32") fun _ => FieldType.sfixed32) <|>
    (pmap (ptag "fixed64") fun _ => FieldType.fixed64) <|>
    (pmap (ptag "sfixed64") fun _ => FieldType.sfixed64) <|>
    (pmap (ptag "bool") fun _ => FieldType.bool) <|>
    (pmap (ptag "string") fun _ => FieldType.string) <|>
    (pmap (ptag "ref_counted_string") fun _ => FieldType.refCountedString) <|>
    (pmap (ptag "bytes") fun _ => FieldType.bytes) <|>
    (pmap (ptag "ref_counted_bytes") fun _ => FieldType.refCountedBytes) <|>
    (pmap (ptag "float") fun _ => FieldType.float) <|>
    (pmap (ptag "double") fun _ => FieldType.double) <|>
    (pmap (ptag "group") fun _ => FieldType.group []) <|>
    (pmap (map_fieldAux fuel) fun kv => FieldType.map kv) <|>
    (pmap word fun w => FieldType.messageOrEnum w)

/-- `map_field`: `map < K , V >`. -/
def map_fieldAux : Nat → Parser (FieldType × FieldType)
  | 0 => fun _ => .fail
  | fuel + 1 => do
    ptag "map"
    let _ ← many0 br
    ptag "<"
    let _ ← many0 br
    let k ← field_typeAux fuel
    let _ ← many0 br
    ptag ","
    let _ ← many0 br
    let v ← field_typeAux fuel
    ptag ">"
    pure (k, v)

end

def field_type : Parser FieldType := fun i => field_typeAux (i.length + 1) i

def map_field : Parser (FieldType × FieldType) := fun i =>
  map_fieldAux (i.length + 1) i

/-! ## Field assembly -/

/-- The result-assembly block of `message_field` in the source.  `none`
models the Rust panics `expect("Cannot parse Packed value")` /
`expect("Cannot parse Deprecated value")`, which abort the whole parse call;
the `packed` field expression is evaluated before the `deprecated` one, as in
the Rust struct literal. -/
def assembleField (ru : Option Rule) (typ : FieldType) (name : String)
    (number : Int) (key_vals : List (String × String))
    (group_fields : Option (List Field)) : Option Field :=
  let typ2 : FieldType :=
    match typ, group_fields with
    | FieldType.group _, some gf => FieldType.group gf
    | t, _ => t
  let dflt : Option String :=
    (key_vals.find? (fun kv => kv.1 == "default")).map (fun kv => kv.2)
  match key_vals.find? (fun kv => kv.1 == "packed") with
  | some kvp =>
    match parseBoolStr kvp.2 with
    | none => none
    | some pb =>
      match key_vals.find? (fun kv => kv.1 == "deprecated") with
      | some kvd =>
        match parseBoolStr kvd.2 with
        | none => none
        | some db =>
          some (Field.mk name (ru.getD Rule.optional) typ2 number dflt (some pb) db)
      | none =>
        some (Field.mk name (ru.getD Rule.optional) typ2 number dflt (some pb) false)
  | none =>
    match key_vals.find? (fun kv => kv.1 == "deprecated") with
    | some kvd =>
      match parseBoolStr kvd.2 with
      | none => none
      | some db =>
        some (Field.mk name (ru.getD Rule.optional) typ2 number dflt none db)
    | none =>
      some (Field.mk name (ru.getD Rule.optional) typ2 number dflt none false)

/-! ## Message grammar (mutually recursive through nesting and groups) -/

/-- Fold of `MessageEvent`s into a `Message` (the `map!` body of `message`):
fields, nested messages, enums and oneofs are pushed; `reserved` payloads are
assigned, overwriting the previous value. -/
def stepMessage (m : Message) : MessageEvent → Message
  | .field f =>
    .mk m.name (m.fields ++ [f]) m.oneofs m.reserved_nums m.reserved_names
      m.messages m.enums
  | .reservedNums r =>
    .mk m.name m.fields m.oneofs r m.reserved_names m.messages m.enums
  | .reservedNames r =>
    .mk m.name m.fields m.oneofs m.reserved_nums r m.messages m.enums
  | .message mm =>
    .mk m.name m.fields m.oneofs m.reserved_nums m.reserved_names
      (m.messages ++ [mm]) m.enums
  | .enumeration e =>
    .mk m.name m.fields m.oneofs m.reserved_nums m.reserved_names m.messages
      (m.enums ++ [e])
  | .oneOf o =>
    .mk m.name m.fields (m.oneofs ++ [o]) m.reserved_nums m.reserved_names
      m.messages m.enums
  | .ignore => m

def foldMessage (name : String) (events : List MessageEvent) : Message :=
  events.foldl stepMessage (Message.mk name [] [] [] [] [] [])

/-- `enum_value`: `name = number ;` with a hex-or-decimal number. -/
def enum_value : Parser EnumValue := do
  let name ← word
  let _ ← many0 br
  ptag "="
  let _ ← many0 br
  let number ← hex_integer <|> integer
  let _ ← many0 br
  ptag ";"
  let _ ← many0 br
  pure (EnumValue.mk name number)

/-- `enumerator`: `enum name { value* } ;*`. -/
def enumerator : Parser Enumeration := do
  ptag "enum"
  let _ ← many1 br
  let name ← word
  let _ ← many0 br
  ptag "\x7b"
  let _ ← many0 br
  let values ← many0 enum_value
  let _ ← many0 br
  ptag "\x7d"
  let _ ← many0 br
  let _ ← many0 (ptag ";")
  pure (Enumeration.mk name values)

mutual

/-- `message_field`: optional rule, type, name, `=`, number, attribute
groups, then `;` or a brace-enclosed group body. -/
def message_fieldAux : Nat → Parser Field
  | 0 => fun _ => .fail
  | fuel + 1 => do
    let ru ← popt rule
    let _ ← many0 br
    let typ ← field_type
    let _ ← many1 br
    let name ← word
    let _ ← many0 br
    ptag "="
    let _ ← many0 br
    let number ← integer
    let _ ← many0 br
    let key_vals ← many0 key_val
    let _ ← many0 br
    let group_fields ← (pmap (ptag ";") fun _ => none) <|>
      (pmap (fields_in_bracesAux fuel) fun fs => some fs)
    match assembleField ru typ name number key_vals group_fields with
    | some fld => pure fld
    | none => fun _ => .fatal

/-- `fields_in_braces`: `{` then a break-separated field list then `}`. -/
def fields_in_bracesAux : Nat → Parser (List Field)
  | 0 => fun _ => .fail
  | fuel + 1 => do
    ptag "\x7b"
    let _ ← many0 br
    let fields ← sepList br (message_fieldAux fuel)
    let _ ← many0 br
    ptag "\x7d"
    pure fields

/-- `one_of`: `oneof name { fields }`. -/
def one_ofAux : Nat → Parser OneOf
  | 0 => fun _ => .fail
  | fuel + 1 => do
    ptag "oneof"
    let _ ← many1 br
    let name ← word
    let _ ← many0 br
    let fields ← fields_in_bracesAux fuel
    let _ ← many0 br
    pure (OneOf.mk name fields)

/-- `message_event`: the alternatives inside a message body, in source
order. -/
def message_eventAux : Nat → Parser MessageEvent
  | 0 => fun _ => .fail
  | fuel + 1 =>
    (pmap reserved_nums fun r => MessageEvent.reservedNums r) <|>
    (pmap reserved_names fun r => MessageEvent.reservedNames r) <|>
    (pmap (message_fieldAux fuel) fun f => MessageEvent.field f) <|>
    (pmap (messageAux fuel) fun m => MessageEvent.message m) <|>
    (pmap enumerator fun e => MessageEvent.enumeration e) <|>
    (pmap (one_ofAux fuel) fun o => MessageEvent.oneOf o) <|>
    (pmap br fun _ => MessageEvent.ignore)

/-- `message_events`: `message name { event* } ;*`. -/
def message_eventsAux : Nat → Parser (String × List MessageEvent)
  | 0 => fun _ => .fail
  | fuel + 1 => do
    ptag "message"
    let _ ← many1 br
    let name ← word
    let _ ← many0 br
    ptag "\x7b"
    let _ ← many0 br
    let events ← many0 (message_eventAux fuel)
    let _ ← many0 br
    ptag "\x7d"
    let _ ← many0 br
    let _ ← many0 (ptag ";")
    pure (name, events)

/-- `message`: `message_events` folded into a `Message`. -/
def messageAux : Nat → Parser Message
  | 0 => fun _ => .fail
  | fuel + 1 =>
    pmap (message_eventsAux fuel) fun ne => foldMessage ne.1 ne.2

end

/-- Fuel bound: the mutual-recursion call depth is at most a small multiple
of the input length, since every nesting level consumes input. -/
def parseFuel (i : Input) : Nat := 4 * i.length + 16

def message_field : Parser Field := fun i => message_fieldAux (parseFuel i) i

def fields_in_braces : Parser (List Field) := fun i =>
  fields_in_bracesAux (parseFuel i) i

def one_of : Parser OneOf := fun i => one_ofAux (parseFuel i) i

def message_event : Parser MessageEvent := fun i =>
  message_eventAux (parseFuel i) i

def message_events : Parser (String × List MessageEvent) := fun i =>
  message_eventsAux (parseFuel i) i

def message : Parser Message := fun i => messageAux (parseFuel i) i

/-! ## File-level grammar -/

/-- `extensions`: `extend extendee { fields }`, one `Extension` per field. -/
def extensions : Parser (List Extension) := do
  ptag "extend"
  let _ ← many1 br
  let extendee ← word
  let _ ← many0 br
  let fields ← fields_in_braces
  pure (fields.map fun f => Extension.mk extendee f)

/-- `option_ignore`: `option` consumed up to the first `;`. -/
def option_ignore : Parser Unit := do
  ptag "option"
  let _ ← many1 br
  let _ ← ptakeUntilConsume ";"
  pure ()

/-- `service_ignore`: `service name {` consumed up to the first `}`. -/
def service_ignore : Parser Unit := do
  ptag "service"
  let _ ← many1 br
  let _ ← word
  let _ ← many0 br
  ptag "\x7b"
  let _ ← ptakeUntilConsume "\x7d"
  pure ()

/-- `event`: the top-level alternatives, in source order. -/
def event : Parser Event :=
  (pmap syntaxP fun s => Event.syntaxE s) <|>
  (pmap importP fun s => Event.importE s) <|>
  (pmap package fun s => Event.packageE s) <|>
  (pmap message fun m => Event.messageE m) <|>
  (pmap enumerator fun e => Event.enumE e) <|>
  (pmap extensions fun e => Event.extensionsE e) <|>
  (pmap option_ignore fun _ => Event.ignoreE) <|>
  (pmap service_ignore fun _ => Event.ignoreE) <|>
  (pmap br fun _ => Event.ignoreE)

/-- The fold of top-level events into the `FileDescriptor` (the `map!` body
of `file_descriptor`): syntax and package overwrite, the list fields are
pushed/extended. -/
def stepEvent (d : FileDescriptor) : Event → FileDescriptor
  | .syntaxE s => { d with syn := s }
  | .importE p => { d with import_paths := d.import_paths ++ [p] }
  | .packageE p => { d with package := p }
  | .messageE m => { d with messages := d.messages ++ [m] }
  | .enumE e => { d with enums := d.enums ++ [e] }
  | .extensionsE l => { d with extensions := d.extensions ++ l }
  | .ignoreE => d

/-- `file_descriptor`: `many0!(event)` folded into a `FileDescriptor`. -/
def file_descriptor : Parser FileDescriptor :=
  pmap (many0 event) fun events => events.foldl stepEvent defaultFileDescriptor

/-- Modelled from the spec: `FileDescriptor::parse` lives in the crate root
(`lib.rs`), which is not part of the given sources; per the spec, parsing a
whole file succeeds only if the entire input is consumed by the top-level
event loop, so any unconsumed trailing bytes (and any failure) yield `none`. -/
def parseFile (i : Input) : Option FileDescriptor :=
  match file_descriptor i with
  | .done [] d => some d
  | _ => none

/-! ## Inversion lemmas for the combinators -/

theorem bind_done {α β : Type} {p : Parser α} {f : α → Parser β} {i r : Input}
    {b : β} (h : (p >>= f) i = PResult.done r b) :
    ∃ i1 a, p i = PResult.done i1 a ∧ f a i1 = PResult.done r b := by
  have h' : pbind p f i = PResult.done r b := h
  unfold pbind at h'
  split at h'
  next i1 a hp => exact ⟨i1, a, hp, h'⟩
  next => exact PResult.noConfusion h'
  next => exact PResult.noConfusion h'

theorem pure_done {α : Type} {a b : α} {i r : Input}
    (h : (pure a : Parser α) i = PResult.done r b) : r = i ∧ b = a := by
  have h' : PResult.done i a = PResult.done r b := h
  injection h' with h1 h2
  exact ⟨h1.symm, h2.symm⟩

theorem alt_done {α : Type} {p q : Parser α} {i r : Input} {a : α}
    (h : (p <|> q) i = PResult.done r a) :
    p i = PResult.done r a ∨ q i = PResult.done r a := by
  have h' : palt p q i = PResult.done r a := h
  unfold palt at h'
  cases hp : p i with
  | done i1 a1 => rw [hp] at h'; exact Or.inl h'
  | fail => rw [hp] at h'; exact Or.inr h'
  | fatal => rw [hp] at h'; exact PResult.noConfusion h'

theorem pmap_done {α β : Type} {p : Parser α} {g : α → β} {i r : Input} {b : β}
    (h : pmap p g i = PResult.done r b) :
    ∃ a, p i = PResult.done r a ∧ b = g a := by
  unfold pmap at h
  split at h
  next i1 a hp =>
    injection h with h1 h2
    exact ⟨a, h1 ▸ hp, h2.symm⟩
  next => exact PResult.noConfusion h
  next => exact PResult.noConfusion h

/-! ## Nonnegativity of the numeric recognizers and of stored numbers -/

theorem integer_nonneg {i r : Input} {v : Int}
    (h : integer i = PResult.done r v) : 0 ≤ v := by
  unfold integer at h
  split at h
  next r1 ds hp =>
    split at h
    · injection h with h1 h2
      exact h2 ▸ Int.natCast_nonneg _
    · exact PResult.noConfusion h
  next => exact PResult.noConfusion h
  next => exact PResult.noConfusion h

theorem hex_integer_nonneg {i r : Input} {v : Int}
    (h : hex_integer i = PResult.done r v) : 0 ≤ v := by
  unfold hex_integer at h
  split at h
  next i1 u hp =>
    split at h
    next r1 ds hd =>
      split at h
      · injection h with h1 h2
        exact h2 ▸ Int.natCast_nonneg _
      · exact PResult.noConfusion h
    next => exact PResult.noConfusion h
    next => exact PResult.noConfusion h
  next => exact PResult.noConfusion h
  next => exact PResult.noConfusion h

theorem integer_minus_fail (l : List Char) :
    integer ('-' :: l) = PResult.fail := rfl

theorem hex_integer_minus_fail (l : List Char) :
    hex_integer ('-' :: l) = PResult.fail := rfl

theorem satAdd1_nonneg {x : Int} (h : 0 ≤ x) : 0 ≤ satAdd1 x := by
  unfold satAdd1 I32_MAX
  split <;> omega

theorem sepListLoop_sound {α β : Type} {P : α → Prop} {sep : Parser β}
    {p : Parser α} (hp : ∀ i r a, p i = PResult.done r a → P a) :
    ∀ (fuel : Nat) {i r : Input} {l : List α},
      sepListLoop sep p fuel i = PResult.done r l → ∀ a ∈ l, P a := by
  intro fuel
  induction fuel with
  | zero =>
    intro i r l h a ha
    injection h with h1 h2
    subst h2
    simp at ha
  | succ n ih =>
    intro i r l h a ha
    unfold sepListLoop at h
    split at h
    next hsep =>
      injection h with h1 h2
      subst h2
      simp at ha
    next hsep => exact PResult.noConfusion h
    next i2 b hsep =>
      split at h
      · split at h
        next hitem =>
          injection h with h1 h2
          subst h2
          simp at ha
        next hitem => exact PResult.noConfusion h
        next i3 a1 hitem =>
          split at h
          · split at h
            next r2 as hloop =>
              injection h with h1 h2
              subst h2
              rcases List.mem_cons.mp ha with rfl | ha2
              · exact hp _ _ _ hitem
              · exact ih hloop a ha2
            next hloop => exact PResult.noConfusion h
            next hloop => exact PResult.noConfusion h
          · injection h with h1 h2
            subst h2
            simp at ha
      · injection h with h1 h2
        subst h2
        simp at ha

theorem sepList_sound {α β : Type} {P : α → Prop} {sep : Parser β}
    {p : Parser α} (hp : ∀ i r a, p i = PResult.done r a → P a)
    {i r : Input} {l : List α}
    (h : sepList sep p i = PResult.done r l) : ∀ a ∈ l, P a := by
  unfold sepList at h
  intro a ha
  split at h
  next hfirst =>
    injection h with h1 h2
    subst h2
    simp at ha
  next hfirst => exact PResult.noConfusion h
  next i1 a1 hfirst =>
    split at h
    · split at h
      next r2 as hloop =>
        injection h with h1 h2
        subst h2
        rcases List.mem_cons.mp ha with rfl | ha2
        · exact hp _ _ _ hfirst
        · exact sepListLoop_sound hp _ hloop a ha2
      next hloop => exact PResult.noConfusion h
      next hloop => exact PResult.noConfusion h
    · exact PResult.noConfusion h

theorem assembleField_number {ru : Option Rule} {typ : FieldType}
    {name : String} {number : Int} {key_vals : List (String × String)}
    {gf : Option (List Field)} {f : Field}
    (h : assembleField ru typ name number key_vals gf = some f) :
    f.number = number := by
  cases hp : key_vals.find? (fun kv => kv.1 == "packed") with
  | none =>
    cases hd : key_vals.find? (fun kv => kv.1 == "deprecated") with
    | none =>
      simp only [assembleField, hp, hd] at h
      injection h with h1
      rw [← h1]
      rfl
    | some kvd =>
      cases hb : parseBoolStr kvd.2 with
      | none =>
        simp only [assembleField, hp, hd, hb] at h
        exact Option.noConfusion h
      | some db =>
        simp only [assembleField, hp, hd, hb] at h
        injection h with h1
        rw [← h1]
        rfl
  | some kvp =>
    cases hb : parseBoolStr kvp.2 with
    | none =>
      simp only [assembleField, hp, hb] at h
      exact Option.noConfusion h
    | some pb =>
      cases hd : key_vals.find? (fun kv => kv.1 == "deprecated") with
      | none =>
        simp only [assembleField, hp, hb, hd] at h
        injection h with h1
        rw [← h1]
        rfl
      | some kvd =>
        cases hb2 : parseBoolStr kvd.2 with
        | none =>
          simp only [assembleField, hp, hb, hd, hb2] at h
          exact Option.noConfusion h
        | some db =>
          simp only [assembleField, hp, hb, hd, hb2] at h
          injection h with h1
          rw [← h1]
          rfl

theorem num_range_nonneg {i r : Input} {pr : Int × Int}
    (h : num_range i = PResult.done r pr) : 0 ≤ pr.1 ∧ 0 ≤ pr.2 := by
  unfold num_range at h
  obtain ⟨i1, lo, h1, h⟩ := bind_done h
  obtain ⟨i2, w2, h2, h⟩ := bind_done h
  obtain ⟨i3, w3, h3, h⟩ := bind_done h
  obtain ⟨i4, w4, h4, h⟩ := bind_done h
  obtain ⟨i5, hi, h5, h⟩ := bind_done h
  obtain ⟨hr, hpr⟩ := pure_done h
  subst hpr
  exact ⟨integer_nonneg h1, satAdd1_nonneg (integer_nonneg h5)⟩

theorem enum_value_nonneg {i r : Input} {ev : EnumValue}
    (h : enum_value i = PResult.done r ev) : 0 ≤ ev.number := by
  unfold enum_value at h
  obtain ⟨i1, name, h1, h⟩ := bind_done h
  obtain ⟨i2, w2, h2, h⟩ := bind_done h
  obtain ⟨i3, w3, h3, h⟩ := bind_done h
  obtain ⟨i4, w4, h4, h⟩ := bind_done h
  obtain ⟨i5, number, h5, h⟩ := bind_done h
  obtain ⟨i6, w6, h6, h⟩ := bind_done h
  obtain ⟨i7, w7, h7, h⟩ := bind_done h
  obtain ⟨i8, w8, h8, h⟩ := bind_done h
  obtain ⟨hr, hev⟩ := pure_done h
  subst hev
  rcases alt_done h5 with h5 | h5
  · exact hex_integer_nonneg h5
  · exact integer_nonneg h5

theorem reserved_nums_nonneg {i r : Input} {l : List (Int × Int)}
    (h : reserved_nums i = PResult.done r l) :
    ∀ p ∈ l, 0 ≤ p.1 ∧ 0 ≤ p.2 := by
  unfold reserved_nums at h
  obtain ⟨i1, w1, h1, h⟩ := bind_done h
  obtain ⟨i2, w2, h2, h⟩ := bind_done h
  obtain ⟨i3, nums, h3, h⟩ := bind_done h
  obtain ⟨i4, w4, h4, h⟩ := bind_done h
  obtain ⟨i5, w5, h5, h⟩ := bind_done h
  obtain ⟨hr, hl⟩ := pure_done h
  subst hl
  refine sepList_sound ?_ h3
  intro i0 r0 pr hpr
  rcases alt_done hpr with hpr | hpr
  · exact num_range_nonneg hpr
  · obtain ⟨n, hn, hpr2⟩ := pmap_done hpr
    subst hpr2
    exact ⟨integer_nonneg hn, satAdd1_nonneg (integer_nonneg hn)⟩

theorem message_field_number_nonneg :
    ∀ (fuel : Nat) {i r : Input} {f : Field},
      message_fieldAux fuel i = PResult.done r f → 0 ≤ f.number := by
  intro fuel i r f h
  cases fuel with
  | zero =>
    simp only [message_fieldAux] at h
    exact PResult.noConfusion h
  | succ fl =>
    simp only [message_fieldAux] at h
    obtain ⟨i1, ru, h1, h⟩ := bind_done h
    obtain ⟨i2, w2, h2, h⟩ := bind_done h
    obtain ⟨i3, typ, h3, h⟩ := bind_done h
    obtain ⟨i4, w4, h4, h⟩ := bind_done h
    obtain ⟨i5, name, h5, h⟩ := bind_done h
    obtain ⟨i6, w6, h6, h⟩ := bind_done h
    obtain ⟨i7, w7, h7, h⟩ := bind_done h
    obtain ⟨i8, w8, h8, h⟩ := bind_done h
    obtain ⟨i9, number, h9, h⟩ := bind_done h
    obtain ⟨i10, w10, h10, h⟩ := bind_done h
    obtain ⟨i11, key_vals, h11, h⟩ := bind_done h
    obtain ⟨i12, w12, h12, h⟩ := bind_done h
    obtain ⟨i13, gf, h13, h⟩ := bind_done h
    cases hA : assembleField ru typ name number key_vals gf with
    | some fld =>
      rw [hA] at h
      obtain ⟨hr, hf⟩ := pure_done h
      subst hf
      rw [assembleField_number hA]
      exact integer_nonneg h9
    | none =>
      rw [hA] at h
      exact PResult.noConfusion h

/-! ## Event-fold helpers for the message-body reduction -/

def evField : MessageEvent → Option Field
  | .field f => some f
  | _ => none

def evMessage : MessageEvent → Option Message
  | .message m => some m
  | _ => none

def evEnum : MessageEvent → Option Enumeration
  | .enumeration e => some e
  | _ => none

def evOneOf : MessageEvent → Option OneOf
  | .oneOf o => some o
  | _ => none

/-- The reserved-numbers payload of the last `ReservedNums` event, or the
default when there is none. -/
def lastNums (dflt : List (Int × Int)) : List MessageEvent → List (Int × Int)
  | [] => dflt
  | e :: rest =>
    match e with
    | .reservedNums r => lastNums r rest
    | _ => lastNums dflt rest

/-- The reserved-names payload of the last `ReservedNames` event, or the
default when there is none. -/
def lastNames (dflt : List String) : List MessageEvent → List String
  | [] => dflt
  | e :: rest =>
    match e with
    | .reservedNames r => lastNames r rest
    | _ => lastNames dflt rest

theorem Message.name_mk (n : String) (fs : List Field) (os : List OneOf)
    (rn : List (Int × Int)) (rs : List String) (ms : List Message)
    (es : List Enumeration) : (Message.mk n fs os rn rs ms es).name = n := rfl

theorem Message.fields_mk (n : String) (fs : List Field) (os : List OneOf)
    (rn : List (Int × Int)) (rs : List String) (ms : List Message)
    (es : List Enumeration) : (Message.mk n fs os rn rs ms es).fields = fs := rfl

theorem Message.oneofs_mk (n : String) (fs : List Field) (os : List OneOf)
    (rn : List (Int × Int)) (rs : List String) (ms : List Message)
    (es : List Enumeration) : (Message.mk n fs os rn rs ms es).oneofs = os := rfl

theorem Message.reserved_nums_mk (n : String) (fs : List Field)
    (os : List OneOf) (rn : List (Int × Int)) (rs : List String)
    (ms : List Message) (es : List Enumeration) :
    (Message.mk n fs os rn rs ms es).reserved_nums = rn := rfl

theorem Message.reserved_names_mk (n : String) (fs : List Field)
    (os : List OneOf) (rn : List (Int × Int)) (rs : List String)
    (ms : List Message) (es : List Enumeration) :
    (Message.mk n fs os rn rs ms es).reserved_names = rs := rfl

theorem Message.messages_mk (n : String) (fs : List Field) (os : List OneOf)
    (rn : List (Int × Int)) (rs : List String) (ms : List Message)
    (es : List Enumeration) : (Message.mk n fs os rn rs ms es).messages = ms := rfl

theorem Message.enums_mk (n : String) (fs : List Field) (os : List OneOf)
    (rn : List (Int × Int)) (rs : List String) (ms : List Message)
    (es : List Enumeration) : (Message.mk n fs os rn rs ms es).enums = es := rfl

theorem foldl_message_spec :
    ∀ (events : List MessageEvent) (m : Message),
      (events.foldl stepMessage m).fields = m.fields ++ events.filterMap evField ∧
      (events.foldl stepMessage m).messages
        = m.messages ++ events.filterMap evMessage ∧
      (events.foldl stepMessage m).enums = m.enums ++ events.filterMap evEnum ∧
      (events.foldl stepMessage m).oneofs = m.oneofs ++ events.filterMap evOneOf ∧
      (events.foldl stepMessage m).reserved_nums = lastNums m.reserved_nums events ∧
      (events.foldl stepMessage m).reserved_names
        = lastNames m.reserved_names events := by
  intro events
  induction events with
  | nil =>
    intro m
    simp [List.filterMap, lastNums, lastNames]
  | cons e rest ih =>
    intro m
    obtain ⟨n, fs, os, rn, rs, ms, es⟩ := m
    cases e <;>
      simp [List.foldl_cons, List.filterMap_cons, stepMessage, lastNums, lastNames,
        evField, evMessage, evEnum, evOneOf, ih, Message.name_mk, Message.fields_mk,
        Message.messages_mk, Message.enums_mk, Message.oneofs_mk,
        Message.reserved_nums_mk, Message.reserved_names_mk]

/-! ## Claim theorems -/

/-- Claim C1, counterexample: the claim says a member field with an explicit
rule keyword inside a `oneof` body fails to match and makes the whole oneof
parse fail.  In fact `one_of` reuses `message_field`, whose rule keyword is
an `opt!`, so `oneof o \x7b repeated int32 a = 1; \x7d` parses successfully
and the recorded field carries the `Repeated` rule. -/
theorem c1_counterexample :
    one_of ("oneof o \x7b repeated int32 a = 1; \x7d".toList)
      = PResult.done []
          (OneOf.mk "o" [Field.mk "a" Rule.repeated FieldType.int32 1 none none false]) :=
  rfl

/-- Claim C1, amended: inside a `oneof` body the member fields are parsed by
the same `message_field` grammar used in message bodies, whose rule keyword
is optional; a member preceded by an explicit rule keyword still matches (the
oneof parse succeeds and the field records that rule), and a member without a
keyword defaults to `Optional`. -/
theorem c1_oneof_rule_accepted :
    one_of ("oneof x \x7b required string s = 2; \x7d".toList)
      = PResult.done []
          (OneOf.mk "x" [Field.mk "s" Rule.required FieldType.string 2 none none false]) ∧
    one_of ("oneof x \x7b string s = 2; \x7d".toList)
      = PResult.done []
          (OneOf.mk "x" [Field.mk "s" Rule.optional FieldType.string 2 none none false]) :=
  ⟨rfl, rfl⟩

/-- Claim C2, counterexample: the claim says one bracket pair containing two
comma-separated pairs, `[packed = true, deprecated = true]`, yields two
distinct pairs.  In fact `key_val` recognizes a single `key = value` pair per
bracket group, with the value running up to the next `]` (commas included),
so this input yields the single pair `("packed", "true, deprecated = true")`
— and a field declaration carrying it panics when parsing that text as a
boolean. -/
theorem c2_counterexample :
    key_val ("[packed = true, deprecated = true]".toList)
      = PResult.done [] ("packed", "true, deprecated = true") ∧
    message_field ("int32 x = 1 [packed = true, deprecated = true];".toList)
      = PResult.fatal :=
  ⟨rfl, rfl⟩

/-- Claim C2, amended: the attribute parser recognizes `[`, breaks, then a
single `key = value` pair whose value is the run of bytes up to (not
including) the next `]`, trimmed of surrounding whitespace, then `]`; two
attributes such as `packed` and `deprecated` are written as two consecutive
bracket groups, each contributing one (key, value) pair. -/
theorem c2_single_pair_groups :
    many0 key_val ("[packed = true][deprecated = true]".toList)
      = PResult.done [] [("packed", "true"), ("deprecated", "true")] ∧
    key_val ("[ packed = x y ]".toList) = PResult.done [] ("packed", "x y") :=
  ⟨rfl, rfl⟩

/-- Claim C3: a `packed` or `deprecated` attribute whose raw value text is
not a recognized boolean literal hits the panic branch of the field assembly
(`expect(...)`, modelled by `assembleField` returning `none` and the parser
returning `fatal`), aborting the whole parse call rather than producing a
recoverable grammar mismatch. -/
theorem c3_malformed_bool_fatal :
    (∀ (key_vals : List (String × String)) (kv : String × String)
        (ru : Option Rule) (typ : FieldType) (nm : String) (number : Int)
        (gf : Option (List Field)),
      key_vals.find? (fun e => e.1 == "packed") = some kv →
      parseBoolStr kv.2 = none →
      assembleField ru typ nm number key_vals gf = none) ∧
    (∀ (key_vals : List (String × String)) (kv : String × String)
        (ru : Option Rule) (typ : FieldType) (nm : String) (number : Int)
        (gf : Option (List Field)),
      key_vals.find? (fun e => e.1 == "packed") = none →
      key_vals.find? (fun e => e.1 == "deprecated") = some kv →
      parseBoolStr kv.2 = none →
      assembleField ru typ nm number key_vals gf = none) ∧
    message_field ("int32 x = 1 [packed = maybe];".toList) = PResult.fatal ∧
    message_field ("int32 x = 1 [deprecated = maybe];".toList) = PResult.fatal ∧
    message ("message M \x7b int32 x = 1 [packed = maybe]; \x7d".toList)
      = PResult.fatal := by
  refine ⟨?_, ?_, rfl, rfl, rfl⟩
  · intro kvs kv ru typ nm number gf h1 h2
    simp only [assembleField, h1, h2]
  · intro kvs kv ru typ nm number gf h0 h1 h2
    simp only [assembleField, h0, h1, h2]

/-- Witness for the claim C3 theorem at a concrete input. -/
theorem c3_malformed_bool_fatal_witness :
    assembleField none FieldType.int32 "x" 1 [("packed", "maybe")] none = none :=
  c3_malformed_bool_fatal.1 [("packed", "maybe")] ("packed", "maybe") none
    FieldType.int32 "x" 1 none rfl rfl

/-- Claim C4: whole-file parsing succeeds only when the top-level event loop
consumes the entire input, and an input with a syntactically invalid trailing
top-level token (a bare identifier) fails rather than yielding a truncated
descriptor. -/
theorem c4_whole_file_consumption :
    (∀ (i : Input) (d : FileDescriptor),
      parseFile i = some d → file_descriptor i = PResult.done [] d) ∧
    parseFile ("message Foo \x7b\x7d\n\ndfgdg\n".toList) = none := by
  constructor
  · intro i d h
    unfold parseFile at h
    split at h
    next d' heq =>
      injection h with h2
      subst h2
      exact heq
    next => exact Option.noConfusion h
  · rfl

/-- Witness for the claim C4 theorem at a concrete input. -/
theorem c4_whole_file_consumption_witness :
    file_descriptor ("message Foo \x7b\x7d".toList)
      = PResult.done []
          (FileDescriptor.mk PSyntax.proto2 [] ""
            [Message.mk "Foo" [] [] [] [] [] []] [] []) :=
  c4_whole_file_consumption.1 _ _ rfl

/-- Claim C5: folding message-body events appends fields, nested messages,
nested enums and oneofs in encounter order, while each `reserved` statement
overwrites `reserved_nums` / `reserved_names` (the last statement of each
kind wins); a message with two reserved-number and two reserved-name
statements keeps only the last of each. -/
theorem c5_fold_semantics :
    (∀ (name : String) (events : List MessageEvent),
      (foldMessage name events).fields = events.filterMap evField ∧
      (foldMessage name events).messages = events.filterMap evMessage ∧
      (foldMessage name events).enums = events.filterMap evEnum ∧
      (foldMessage name events).oneofs = events.filterMap evOneOf ∧
      (foldMessage name events).reserved_nums = lastNums [] events ∧
      (foldMessage name events).reserved_names = lastNames [] events) ∧
    message
        ("message M \x7b reserved 1; reserved 2; reserved \"a\"; reserved \"b\"; \x7d".toList)
      = PResult.done [] (Message.mk "M" [] [] [(2, 3)] ["b"] [] []) := by
  constructor
  · intro name events
    have h := foldl_message_spec events (Message.mk name [] [] [] [] [] [])
    simpa [foldMessage, Message.fields_mk, Message.messages_mk, Message.enums_mk,
      Message.oneofs_mk, Message.reserved_nums_mk, Message.reserved_names_mk]
      using h
  · rfl

/-- Claim C6: `reserved 4, 15, 17 to 20, 30;` parses to the half-open ranges
`[4..5, 15..16, 17..21, 30..31]`; a single integer `n` yields `[n, n+1)`,
`A to B` yields `[A, B+1)`, and the `+1` is a saturating signed 32-bit
addition, so an upper bound of `i32::MAX` stays at `i32::MAX`. -/
theorem c6_reserved_ranges :
    reserved_nums ("reserved 4, 15, 17 to 20, 30;".toList)
      = PResult.done [] [(4, 5), (15, 16), (17, 21), (30, 31)] ∧
    reserved_nums ("reserved 7;".toList) = PResult.done [] [(7, 8)] ∧
    reserved_nums ("reserved 2147483646 to 2147483647;".toList)
      = PResult.done [] [(2147483646, 2147483647)] ∧
    num_range ("0 to 2147483647;".toList)
      = PResult.done (";".toList) (0, 2147483647) ∧
    (∀ x : Int, satAdd1 x = min (x + 1) I32_MAX) := by
  refine ⟨rfl, rfl, rfl, rfl, ?_⟩
  intro x
  simp only [satAdd1, I32_MAX, Int.min_def]
  split <;> split <;> omega

/-- Claim C7, counterexample: the claim says a field with no `packed`
attribute has `packed` equal to the boolean `false`.  In fact the source
builds `packed` with `Option::map`, so an absent attribute leaves `packed`
as `None`, not `Some false`. -/
theorem c7_counterexample :
    message_field ("int32 x = 1;".toList)
      = PResult.done [] (Field.mk "x" Rule.optional FieldType.int32 1 none none false) ∧
    (Field.mk "x" Rule.optional FieldType.int32 1 none none false).packed
      ≠ some false :=
  ⟨rfl, by simp [Field.packed]⟩

/-- Claim C7, amended: a field declaration whose attribute list contains no
`packed` pair gets `packed = None` (no boolean recorded, rather than
`false`), and one with no `deprecated` pair gets `deprecated = false`; when
the pair is present the boolean is parsed from the pair's value text. -/
theorem c7_field_defaults :
    (∀ (ru : Option Rule) (typ : FieldType) (nm : String) (number : Int)
        (key_vals : List (String × String)) (gf : Option (List Field)) (f : Field),
      key_vals.find? (fun e => e.1 == "packed") = none →
      key_vals.find? (fun e => e.1 == "deprecated") = none →
      assembleField ru typ nm number key_vals gf = some f →
      f.packed = none ∧ f.deprecated = false) ∧
    message_field ("int32 x = 1 [packed = false];".toList)
      = PResult.done []
          (Field.mk "x" Rule.optional FieldType.int32 1 none (some false) false) ∧
    message_field ("int32 x = 1 [deprecated = true];".toList)
      = PResult.done [] (Field.mk "x" Rule.optional FieldType.int32 1 none none true) := by
  refine ⟨?_, rfl, rfl⟩
  intro ru typ nm number kvs gf f h1 h2 h3
  simp only [assembleField, h1, h2] at h3
  injection h3 with h4
  rw [← h4]
  exact ⟨rfl, rfl⟩

/-- Witness for the claim C7 amended theorem at a concrete input. -/
theorem c7_field_defaults_witness :
    (Field.mk "x" Rule.optional FieldType.int32 5 none none false).packed = none ∧
    (Field.mk "x" Rule.optional FieldType.int32 5 none none false).deprecated
      = false :=
  c7_field_defaults.1 none FieldType.int32 "x" 5 [] none
    (Field.mk "x" Rule.optional FieldType.int32 5 none none false) rfl rfl rfl

/-- Claim C8: a field declaration accepts zero or more consecutive bracket
groups, each holding exactly one key/value pair whose value runs to the next
`]` (a comma is part of that single value); the pairs of all groups are
concatenated in order, and for `default`, `packed` and `deprecated` the
first pair with that key wins. -/
theorem c8_attribute_concat :
    many0 key_val ("[default = 1][packed = true]".toList)
      = PResult.done [] [("default", "1"), ("packed", "true")] ∧
    message_field ("int32 x = 1 [default = 1, 2];".toList)
      = PResult.done []
          (Field.mk "x" Rule.optional FieldType.int32 1 (some "1, 2") none false) ∧
    message_field ("int32 x = 1 [default = a][default = b];".toList)
      = PResult.done []
          (Field.mk "x" Rule.optional FieldType.int32 1 (some "a") none false) ∧
    message_field ("int32 x = 1 [packed = true][packed = false];".toList)
      = PResult.done []
          (Field.mk "x" Rule.optional FieldType.int32 1 none (some true) false) ∧
    message_field ("int32 x = 1 [deprecated = true][deprecated = false];".toList)
      = PResult.done [] (Field.mk "x" Rule.optional FieldType.int32 1 none none true) ∧
    message_field ("int32 y = 2;".toList)
      = PResult.done [] (Field.mk "y" Rule.optional FieldType.int32 2 none none false) :=
  ⟨rfl, rfl, rfl, rfl, rfl, rfl⟩

/-- Claim C9: the identifier recognizer `word` consumes a possibly-empty run
of word bytes, so it accepts the empty string, and `message \x7b\x7d` (one
break after the keyword) parses to a `Message` whose name is the empty
string. -/
theorem c9_empty_word :
    word ([] : Input) = PResult.done [] "" ∧
    word ("\x7bx".toList) = PResult.done ("\x7bx".toList) "" ∧
    message_events ("message \x7b\x7d".toList) = PResult.done [] ("", []) ∧
    message ("message \x7b\x7d".toList)
      = PResult.done [] (Message.mk "" [] [] [] [] [] []) :=
  ⟨rfl, rfl, rfl, rfl⟩

/-- Claim C10: the numeric recognizers accept only unsigned digit runs
(decimal, or hex behind `0x`), a leading `-` is a grammar mismatch, and
every number stored in a parse result — `Field.number`, `EnumValue.number`
and the reserved-range endpoints — is nonnegative. -/
theorem c10_numbers_nonneg :
    (∀ (i r : Input) (v : Int), integer i = PResult.done r v → 0 ≤ v) ∧
    (∀ (i r : Input) (v : Int), hex_integer i = PResult.done r v → 0 ≤ v) ∧
    (∀ l : List Char, integer ('-' :: l) = PResult.fail) ∧
    (∀ l : List Char, hex_integer ('-' :: l) = PResult.fail) ∧
    (∀ (i r : Input) (ev : EnumValue),
      enum_value i = PResult.done r ev → 0 ≤ ev.number) ∧
    (∀ (fuel : Nat) (i r : Input) (f : Field),
      message_fieldAux fuel i = PResult.done r f → 0 ≤ f.number) ∧
    (∀ (i r : Input) (pr : Int × Int),
      num_range i = PResult.done r pr → 0 ≤ pr.1 ∧ 0 ≤ pr.2) ∧
    (∀ (i r : Input) (l : List (Int × Int)),
      reserved_nums i = PResult.done r l → ∀ p ∈ l, 0 ≤ p.1 ∧ 0 ≤ p.2) :=
  ⟨fun _ _ _ h => integer_nonneg h,
   fun _ _ _ h => hex_integer_nonneg h,
   integer_minus_fail,
   hex_integer_minus_fail,
   fun _ _ _ h => enum_value_nonneg h,
   fun fuel _ _ _ h => message_field_number_nonneg fuel h,
   fun _ _ _ h => num_range_nonneg h,
   fun _ _ _ h => reserved_nums_nonneg h⟩

/-- Witness for the claim C10 theorem at concrete inputs. -/
theorem c10_numbers_nonneg_witness :
    (0 : Int) ≤ 5 ∧ (0 : Int) ≤ 255 ∧ (0 : Int) ≤ (EnumValue.mk "A" 3).number :=
  ⟨c10_numbers_nonneg.1 ("5".toList) [] 5 rfl,
   c10_numbers_nonneg.2.1 ("0xff".toList) [] 255 rfl,
   c10_numbers_nonneg.2.2.2.2.1 ("A = 3;".toList) [] (EnumValue.mk "A" 3) rfl⟩

end Proto
